import Mathlib

/-!
Verification development for the BayesRehermann conversational classification
system (`src/__init__.py`).  The Python source is shallowly embedded: pure
functions become Lean functions, the mutable object state becomes an explicit
`BR` record threaded through the operations, Python exceptions become explicit
result values, and the external collaborators (the nltk toolkit, the naive
Bayes trainer, the sqlite connection) are parameters of the embedding.
-/

/-- Values stored in a feature dictionary.  In the source the values are
strings (`tag`, `word`, stems, single characters), integers (`len(sent)`,
`response_index`, ...) or the pair `(word, tag)`. -/
inductive FeatVal where
  | vStr  : String → FeatVal
  | vNat  : Nat → FeatVal
  | vPair : String → String → FeatVal
deriving DecidableEq

/-- A classification label: a real word, or the terminator.  The source uses
the Python value `False` as the terminator label ("once T is larger than the
predicted output's length, it should return None/False"). -/
inductive Label where
  | word : String → Label
  | term : Label
deriving DecidableEq

/-- A Python `dict` with string keys: an association list in insertion order,
with the single-binding-per-key invariant maintained by `aset`. -/
abbrev Dict := List (String × FeatVal)

/-- Python dict assignment `d[k] = v`: replace in place if the key is present
(keeping its position, as CPython dicts do), otherwise append at the end. -/
def aset {α : Type} (k : String) (v : α) : List (String × α) → List (String × α)
  | [] => [(k, v)]
  | (k', v') :: rest => if k' = k then (k', v) :: rest else (k', v') :: aset k v rest

/-- Python dict read `d.get(k)` / `d[k]`. -/
def alookup {α : Type} (k : String) : List (String × α) → Option α
  | [] => none
  | (k', v) :: rest => if k' = k then some v else alookup k rest

/-- Running a sequence of dict assignments in order (a `for` loop of
`d[k] = v` statements). -/
def applyWrites (ws : List (String × FeatVal)) (d : Dict) : Dict :=
  ws.foldl (fun d p => aset p.1 p.2 d) d

/-- The value of the last write to key `k` in a write sequence, if any. -/
def wlast (k : String) : List (String × FeatVal) → Option FeatVal
  | [] => none
  | p :: rest =>
    match wlast k rest with
    | some v => some v
    | none => if p.1 = k then some p.2 else none

/-- Decimal digits of `n`, fuel-driven so that it is structural (the fuel
`n + 1` always suffices).  Models the decimal rendering used by Python's
`"{}".format` on a nonnegative integer. -/
def digitsGo : Nat → Nat → List Char
  | 0, _ => []
  | fuel + 1, n =>
    if n < 10 then [Nat.digitChar n]
    else digitsGo fuel (n / 10) ++ [Nat.digitChar (n % 10)]

/-- Decimal rendering of a natural number as a character list. -/
def digitsOf (n : Nat) : List Char := digitsGo (n + 1) n

/-- Decode a decimal digit string back to the number it denotes (used to
prove that decimal rendering is injective). -/
def decodeDigits (l : List Char) : Nat := l.foldl (fun a c => a * 10 + (c.toNat - 48)) 0

/-- Python `' '.join` at the character-list level. -/
def joinCh : List (List Char) → List Char
  | [] => []
  | [w] => w
  | w :: ws => w ++ ' ' :: joinCh ws

/-- Python `s.split(' ')` at the character-list level: split at every single
space, keeping empty pieces (`''.split(' ') == ['']`,
`'a  b'.split(' ') == ['a', '', 'b']`). -/
def splitCh : List Char → List (List Char)
  | [] => [[]]
  | c :: rest =>
    if c = ' ' then [] :: splitCh rest
    else
      match splitCh rest with
      | [] => [[c]]
      | w :: ws => (c :: w) :: ws

/-- Python `' '.join(l)` on strings. -/
def pyJoinSpace (l : List String) : String := String.mk (joinCh (l.map String.data))

/-- Python `s.split(' ')` on strings. -/
def pySplitSpace (s : String) : List String := (splitCh s.data).map String.mk

/-- Python no-argument `s.split()`: split on maximal runs of whitespace,
dropping empty pieces.  (Used only to state the spec's "split on whitespace"
wording; the source itself always splits on a single space.) -/
def wsSplit : List Char → List (List Char)
  | [] => []
  | c :: rest =>
    if c.isWhitespace then wsSplit rest
    else
      match rest with
      | [] => [[c]]
      | c2 :: _ =>
        if c2.isWhitespace then [c] :: wsSplit rest
        else
          match wsSplit rest with
          | [] => [[c]]
          | w :: ws => (c :: w) :: ws

/-- Python whitespace split on strings. -/
def pySplitWs (s : String) : List String := (wsSplit s.data).map String.mk

/-- Python string slice `s[:k]` for a nonnegative `k`. -/
def pyTakeStr (s : String) (k : Nat) : String := String.mk (s.data.take k)

/-- Python string slice `s[k:]` for a nonnegative `k`. -/
def pyDropStr (s : String) (k : Nat) : String := String.mk (s.data.drop k)

/-- Python `s[0]` (a one-character string).  An empty token would raise in
Python; the spec treats empty tokens as a precondition violation, so the
`""` case is arbitrary. -/
def strFirst (s : String) : String :=
  match s.data with
  | [] => ""
  | c :: _ => String.mk [c]

/-- Python `s[-1]` (a one-character string); `""` case as in `strFirst`. -/
def strLast (s : String) : String :=
  match s.data.getLast? with
  | none => ""
  | some c => String.mk [c]

/-- Python list slice `l[:k]` for an arbitrary (possibly negative) index,
as used by `response[:-recurse + 1]` in `respond`. -/
def pySliceTo {α : Type} (l : List α) (k : Int) : List α :=
  if k < 0 then l.take (l.length + k).toNat
  else if k = 0 then []
  else l.take k.toNat

/-- The external NLP collaborators used by `sentence_data`:
`nltk.word_tokenize`, `nltk.pos_tag` and `PorterStemmer().stem`.
`nltk.pos_tag(tokens)` returns one `(token, tag)` pair per token, with the
tag depending on the whole token list; `tagOf tokens i` is the tag it
assigns to token `i`. -/
structure Toolkit where
  tokenize : String → List String
  tagOf : List String → Nat → String
  stem : String → String

/-- The per-token feature families written by `sentence_data`.  Note that the
source writes both the first and the last character of the token under the
same name `'first letter'` (`sub_data('first letter', word[0])` followed by
`sub_data('first letter', word[-1])`), so there is no separate last-letter
family. -/
inductive Fam where
  | tag | token | pos | tokenChars | tagStem | tagBranch | tokenStem | firstLetter
deriving DecidableEq

/-- The name string of each feature family, as a character list. -/
def famChars : Fam → List Char
  | .tag => ['t', 'a', 'g']
  | .token => ['t', 'o', 'k', 'e', 'n']
  | .pos => ['p', 'o', 's']
  | .tokenChars => ['t', 'o', 'k', 'e', 'n', ' ', 'c', 'h', 'a', 'r', 's']
  | .tagStem => ['t', 'a', 'g', ' ', 's', 't', 'e', 'm']
  | .tagBranch => ['t', 'a', 'g', ' ', 'b', 'r', 'a', 'n', 'c', 'h']
  | .tokenStem => ['t', 'o', 'k', 'e', 'n', ' ', 's', 't', 'e', 'm']
  | .firstLetter => ['f', 'i', 'r', 's', 't', ' ', 'l', 'e', 't', 't', 'e', 'r']

/-- The forward key `"{} #{}".format(name, i)` written by `sub_data`. -/
def fwdKey (f : Fam) (i : Nat) : String :=
  String.mk (famChars f ++ ' ' :: '#' :: digitsOf i)

/-- The backward key `"{} #-{}".format(name, len(tags) - i)` written by
`sub_data`. -/
def bwdKey (f : Fam) (k : Nat) : String :=
  String.mk (famChars f ++ ' ' :: '#' :: '-' :: digitsOf k)

/-- The context key `'-{} {}'.format(i, k)` under which history features are
merged into the result. -/
def ctxKey (i : Nat) (k : String) : String :=
  String.mk ('-' :: digitsOf i ++ ' ' :: k.data)

/-- The three always-present scalar features of `sentence_data`:
`data['total chars'] = len(sent)`, `data['total words'] = len(sent.split(' '))`,
`data['total tokens'] = len(tokens)`. -/
def scalarWrites (sent : String) (ntokens : Nat) : List (String × FeatVal) :=
  [("total chars", .vNat sent.data.length),
   ("total words", .vNat (pySplitSpace sent).length),
   ("total tokens", .vNat ntokens)]

/-- The dict assignments performed by the body of the
`for i, (word, tag) in enumerate(tags)` loop of `sentence_data`, in source
order.  Each `sub_data(name, value)` writes the forward key and then the
backward key; the final two calls both use the name `'first letter'`
(`word[0]` and then `word[-1]`), as in the source. -/
def tokenWrites (i n : Nat) (word tag : String) (stem : String → String) :
    List (String × FeatVal) :=
  [ (fwdKey .tag i, .vStr tag), (bwdKey .tag (n - i), .vStr tag),
    (fwdKey .token i, .vStr word), (bwdKey .token (n - i), .vStr word),
    (fwdKey .pos i, .vPair word tag), (bwdKey .pos (n - i), .vPair word tag),
    (fwdKey .tokenChars i, .vNat word.data.length),
    (bwdKey .tokenChars (n - i), .vNat word.data.length),
    (fwdKey .tagStem i, .vStr (pyTakeStr tag 2)), (bwdKey .tagStem (n - i), .vStr (pyTakeStr tag 2)),
    (fwdKey .tagBranch i, .vStr (pyDropStr tag 2)), (bwdKey .tagBranch (n - i), .vStr (pyDropStr tag 2)),
    (fwdKey .tokenStem i, .vStr (stem word)), (bwdKey .tokenStem (n - i), .vStr (stem word)),
    (fwdKey .firstLetter i, .vStr (strFirst word)), (bwdKey .firstLetter (n - i), .vStr (strFirst word)),
    (fwdKey .firstLetter i, .vStr (strLast word)), (bwdKey .firstLetter (n - i), .vStr (strLast word)) ]

/-- The value that actually ends up stored for family `f` of a token: the
last write to the key wins, so `firstLetter` holds the token's LAST character
(`word[-1]` overwrites `word[0]`). -/
def famValue (f : Fam) (word tag : String) (stem : String → String) : FeatVal :=
  match f with
  | .tag => .vStr tag
  | .token => .vStr word
  | .pos => .vPair word tag
  | .tokenChars => .vNat word.data.length
  | .tagStem => .vStr (pyTakeStr tag 2)
  | .tagBranch => .vStr (pyDropStr tag 2)
  | .tokenStem => .vStr (stem word)
  | .firstLetter => .vStr (strLast word)

/-- The context-free part of `sentence_data`: seed the dict with the caller's
keyword arguments, add the three scalar features, then run the per-token
loop.  `enumerate(tags)` yields `(i, (tokens[i], tag of token i))` for
`i < len(tokens)`, since `nltk.pos_tag` returns one pair per token. -/
def sentence_base (tk : Toolkit) (sent : String) (kwargs : Dict) : Dict :=
  let tokens := tk.tokenize sent
  let n := tokens.length
  applyWrites
    (scalarWrites sent n ++
      (List.range n).flatMap
        (fun i => tokenWrites i n (tokens.getD i "") (tk.tagOf tokens i) tk.stem))
    kwargs

/-- `sentence_data(sent, history, use_context, **kwargs)`.  When
`use_context` is true, the features of each history entry `h` at offset `i`
are merged in with every key prefixed by `'-{} '.format(i)`.  The source's
recursive call `self.sentence_data(h, history[i+1:], use_context=False)`
never reads its `history` argument (history is only used inside the
`if use_context:` branch), so it equals the context-free extraction
`sentence_base tk h []`. -/
def sentence_data (tk : Toolkit) (sent : String) (history : List String)
    (use_context : Bool) (kwargs : Dict) : Dict :=
  let d := sentence_base tk sent kwargs
  if use_context then
    applyWrites
      (history.enum.flatMap
        (fun p => (sentence_base tk p.2 []).map (fun q => (ctxKey p.1 q.1, q.2))))
      d
  else d

/-- The mutable loop state of `respond`: the output word list, the position
counter `i`, the last appended word (`None` initially), the consecutive-repeat
counter `recurse`, and the (mutable, shrinking) `recursion_limit`. -/
structure GenState where
  response : List String
  i : Nat
  last : Option String
  recurse : Nat
  recLim : Nat
deriving DecidableEq

/-- Outcome of one iteration of the `while True:` loop of `respond`:
either fall through to the next iteration with an updated state, or `break`
with the final value of `response`. -/
inductive StepRes where
  | cont : GenState → StepRes
  | halt : List String → StepRes
deriving DecidableEq

/-- One iteration of the `while True:` loop of `respond`, for a classifier
`classify` (the trained model's `classify` method).  Source order:
classify; `break` on the terminator; `if word == last: recurse += 1 else:
recurse == 0` — the `else` branch of the source is the comparison
`recurse == 0`, a no-op, so the counter is NOT reset when the word changes;
truncate-and-`break` when `recurse > recursion_limit`; append; `break` at the
`limit` hard cap; update `last` and shrink `recursion_limit`. -/
def gen_step (tk : Toolkit) (classify : Dict → Label) (sentence : String)
    (history : List String) (limit : Nat) (s : GenState) : StepRes :=
  match classify (sentence_data tk sentence history true [("response_index", .vNat s.i)]) with
  | .term => .halt s.response
  | .word w =>
    let recurse := if some w = s.last then s.recurse + 1 else s.recurse
    if recurse > s.recLim then
      .halt (pySliceTo s.response (1 - (recurse : Int)))
    else
      let response := s.response ++ [w]
      if response.length ≥ limit then .halt response
      else .cont ⟨response, s.i + 1, some w, recurse, min s.recLim (limit - response.length)⟩

/-- Fuel-driven iteration of `gen_step`.  Each non-final iteration appends one
word and requires the new length to stay below `limit`, so `limit + 1` units
of fuel always suffice; on (unreachable) fuel exhaustion the current response
is returned. -/
def gen_loopF (tk : Toolkit) (classify : Dict → Label) (sentence : String)
    (history : List String) (limit : Nat) : Nat → GenState → List String
  | 0, s => s.response
  | fuel + 1, s =>
    match gen_step tk classify sentence history limit s with
    | .halt r => r
    | .cont s' => gen_loopF tk classify sentence history limit fuel s'

/-- The word list accumulated by the generation loop of `respond`, started
from `response = []`, `i = 0`, `last = None`, `recurse = 0`. -/
def respond_words (tk : Toolkit) (classify : Dict → Label) (sentence : String)
    (history : List String) (limit recursion_limit : Nat) : List String :=
  gen_loopF tk classify sentence history limit (limit + 1)
    ⟨[], 0, none, 0, recursion_limit⟩

/-- The whole in-memory state of a `BayesRehermann` instance, parameterized
by the opaque classifier type `Clsf` produced by the external trainer.
`hasDb` records whether a database filename was passed to `__init__`
(`self.conn` is `None` exactly when it was not). -/
structure BR (Clsf : Type) where
  data : List (List String)
  classifiers : List (String × Clsf)
  history : List (String × List String)
  snapshots : List (String × List (List String))
  hasDb : Bool

/-- The labels a sentence of position `i+1` contributes when it is the "next"
sentence: `context[i + 1].split(' ') + [False] * 50`. -/
def nextWordsCode (s : String) : List Label :=
  (pySplitSpace s).map .word ++ List.replicate 50 .term

/-- The training examples contributed by one conversation in
`create_snapshot`:
`[(self.sentence_data(sentence, context[:i], response_index=wi), word)
   for i, sentence in enumerate(context[:-1])
   for wi, word in list(enumerate(context[i + 1].split(' ') + [False] * 50))]`. -/
def convExamples (tk : Toolkit) (context : List String) : List (Dict × Label) :=
  context.dropLast.enum.flatMap (fun p =>
    (nextWordsCode (context.getD (p.1 + 1) "")).enum.map (fun q =>
      (sentence_data tk p.2 (context.take p.1) true [("response_index", .vNat q.1)], q.2)))

/-- The flat training set `train_data` aggregated over `self.data` in
`create_snapshot`. -/
def trainData (tk : Toolkit) (data : List (List String)) : List (Dict × Label) :=
  (data.map (convExamples tk)).flatten

/-- Result of `create_snapshot`: `False` when the name exists, `True` on
success, and the `ValueError("No training data ...")` exception otherwise. -/
inductive SnapResult where
  | alreadyExists | created | noTrainingData
deriving DecidableEq

/-- `create_snapshot(key)` run synchronously (the `use_threads=False` path;
with threads the `train()` body runs in a detached thread but performs the
same state updates).  Source order: the existence check returns `False`
before any mutation; otherwise `self.snapshots[key] = self.data` is recorded
FIRST, the flat training set is built, and `train()` either registers
`self.classifiers[key]` and clears the buffer (`self.data = {}`, an empty
Python dict, modeled as the empty list) or raises
`ValueError("No training data ...")` — leaving the snapshot entry in place
and the classifier map and buffer untouched.  Database commits touch only the
external sqlite store and are not modeled. -/
def create_snapshot {Clsf : Type} (tk : Toolkit)
    (train : List (Dict × Label) → Clsf) (br : BR Clsf) (key : String) :
    SnapResult × BR Clsf :=
  if (alookup key br.snapshots).isSome then (.alreadyExists, br)
  else
    let br1 := { br with snapshots := aset key br.data br.snapshots }
    let td := trainData tk br.data
    if td.length > 0 then
      (.created, { br1 with classifiers := aset key (train td) br1.classifiers, data := [] })
    else
      (.noTrainingData, br1)

/-- `respond(snapshot, sentence, speaker, use_history, commit_history, limit,
recursion_limit)` with its state effects.  The first component is the value
returned to the caller: `none` models an escaping exception — the `KeyError`
of `self.classifiers[snapshot]` for an unknown snapshot, or the
`AttributeError` of `self.conn.cursor()` when `commit_history` is requested
on an instance built without a database (`self.conn is None`).  The history
append (`self.history[speaker].append(...)` twice) happens before the commit
attempt and is not rolled back. -/
def respondFull {Clsf : Type} (tk : Toolkit) (classify : Clsf → Dict → Label)
    (br : BR Clsf) (snapshot sentence : String) (speaker : Option String)
    (use_history commit_history : Bool) (limit recursion_limit : Nat) :
    Option String × BR Clsf :=
  let history := match speaker, use_history with
    | some sp, true => (alookup sp br.history).getD []
    | _, _ => []
  match alookup snapshot br.classifiers with
  | none => (none, br)
  | some c =>
    let words := respond_words tk (classify c) sentence history limit recursion_limit
    let text := pyJoinSpace words
    match speaker, use_history with
    | some sp, true =>
      let prev := (alookup sp br.history).getD []
      let br2 := { br with history := aset sp (prev ++ [sentence, text]) br.history }
      if commit_history then
        if br.hasDb then (some text, br2) else (none, br2)
      else (some text, br2)
    | _, _ => (some text, br)

/-- The word-label list prescribed by claim C3 verbatim: the words of the
next sentence "split on whitespace", followed by 50 terminator labels. -/
def claimNextWords (s : String) : List Label :=
  (pySplitWs s).map .word ++ List.replicate 50 .term

/-- The training set prescribed by claim C3 for one conversation: for every
sentence position `i` from `0` to `len(conversation) - 2` and every position
`wi` of `claimNextWords conversation[i+1]`, one example whose feature vector
is the extraction of `conversation[i]` with history `conversation[:i]`,
context enabled and `response_index = wi`, and whose label is
`claimNextWords[wi]`. -/
def claimConvExamples (tk : Toolkit) (conv : List String) : List (Dict × Label) :=
  (List.range (conv.length - 1)).flatMap (fun i =>
    (claimNextWords (conv.getD (i + 1) "")).enum.map (fun q =>
      (sentence_data tk (conv.getD i "") (conv.take i) true [("response_index", .vNat q.1)], q.2)))

/-- The training set prescribed by claim C3 across all conversations. -/
def claimTrainingSet (tk : Toolkit) (data : List (List String)) : List (Dict × Label) :=
  (data.map (claimConvExamples tk)).flatten

/-- The amended C3 prescription: exactly as `claimConvExamples`, except that
the next sentence is split on single spaces (Python `split(' ')`, keeping the
empty strings produced by runs of spaces), as the source does. -/
def claimConvExamplesSp (tk : Toolkit) (conv : List String) : List (Dict × Label) :=
  (List.range (conv.length - 1)).flatMap (fun i =>
    (nextWordsCode (conv.getD (i + 1) "")).enum.map (fun q =>
      (sentence_data tk (conv.getD i "") (conv.take i) true [("response_index", .vNat q.1)], q.2)))

/-- The amended C3 training set across all conversations. -/
def claimTrainingSetSp (tk : Toolkit) (data : List (List String)) : List (Dict × Label) :=
  (data.map (claimConvExamplesSp tk)).flatten

/-- A trivial toolkit for concrete runs: no tokens, a constant tagger and the
identity stemmer. -/
def tkTriv : Toolkit := ⟨fun _ => [], fun _ _ => "", fun w => w⟩

/-- A one-token toolkit for concrete runs: the whole sentence is the single
token, tagged `"NN"`, with the identity stemmer. -/
def tkOne : Toolkit := ⟨fun s => [s], fun _ _ => "NN", fun w => w⟩

theorem alookup_aset {α : Type} (k k' : String) (v : α) (l : List (String × α)) :
    alookup k (aset k' v l) = if k' = k then some v else alookup k l := by
  induction l with
  | nil => simp [aset, alookup]
  | cons p rest ih =>
    obtain ⟨k'', v''⟩ := p
    by_cases h1 : k'' = k'
    · subst h1
      by_cases h2 : k'' = k <;> simp [aset, alookup, h2]
    · have h1' : ¬ k' = k'' := fun h => h1 h.symm
      by_cases h2 : k'' = k
      · subst h2
        simp [aset, alookup, h1, h1']
      · simp [aset, alookup, h1, h2, ih]

/-- C1: in `respond`, when the classified word differs from the last-emitted
word, the source executes `recurse == 0` — a comparison, not an assignment —
so the repeat counter is NOT reset to zero.  Concrete run of one loop
iteration: state after emitting `a, a` (`last = "a"`, `recurse = 1`), the
classifier now returns `"b"`, and the new state still carries `recurse = 1`
where the claim requires `0`. -/
theorem respond_recurse_not_reset :
    gen_step tkTriv (fun _ => .word "b") "x" [] 1000 ⟨["a", "a"], 2, some "a", 1, 5⟩ =
      .cont ⟨["a", "a", "b"], 3, some "b", 1, 5⟩ := by decide

/-- C5: evaluating `sentence_data` on the one-token sentence `"ab"` shows
that the key `'first letter #0'` holds `"b"` — the token's LAST character,
because `sub_data('first letter', word[-1])` reuses the `'first letter'` name
and overwrites `sub_data('first letter', word[0])` — and that no feature of
the vector holds the first character `"a"` at all: there is no distinct
last-character family, contradicting the claim. -/
theorem extract_first_letter_overwritten :
    alookup (fwdKey .firstLetter 0)
        (sentence_data tkOne "ab" [] true [("response_index", .vNat 0)]) =
      some (.vStr "b") ∧
    alookup (bwdKey .firstLetter 1)
        (sentence_data tkOne "ab" [] true [("response_index", .vNat 0)]) =
      some (.vStr "b") ∧
    ∀ p ∈ sentence_data tkOne "ab" [] true [("response_index", .vNat 0)],
      p.2 ≠ .vStr "a" := by decide

/-- C7: calling `create_snapshot` with a name that already has a snapshot
returns the `AlreadyExists` signal (`False`) and leaves the entire state —
stored conversations, registered classifiers, everything — exactly as it
was. -/
theorem create_snapshot_already_exists_no_mutation {Clsf : Type} (tk : Toolkit)
    (train : List (Dict × Label) → Clsf) (br : BR Clsf) (key : String)
    (h : (alookup key br.snapshots).isSome) :
    create_snapshot tk train br key = (.alreadyExists, br) := by
  simp [create_snapshot, h]

theorem create_snapshot_already_exists_no_mutation_witness :
    ((alookup "s" (⟨[["hi"]], [("s", ())], [], [("s", [["ho"]])], false⟩ : BR Unit).snapshots).isSome = true) ∧
    create_snapshot tkTriv (fun _ => ()) ⟨[["hi"]], [("s", ())], [], [("s", [["ho"]])], false⟩ "s" =
      (.alreadyExists, ⟨[["hi"]], [("s", ())], [], [("s", [["ho"]])], false⟩) :=
  ⟨rfl, create_snapshot_already_exists_no_mutation tkTriv (fun _ => ())
    ⟨[["hi"]], [("s", ())], [], [("s", [["ho"]])], false⟩ "s" rfl⟩

/-- C8: when the synthesized training set is empty and the name is fresh,
`create_snapshot` raises `ValueError("No training data ...")` and registers
no classifier: the classifier map is exactly what it was before the call. -/
theorem create_snapshot_no_training_data {Clsf : Type} (tk : Toolkit)
    (train : List (Dict × Label) → Clsf) (br : BR Clsf) (key : String)
    (hfresh : alookup key br.snapshots = none)
    (hempty : trainData tk br.data = []) :
    (create_snapshot tk train br key).1 = .noTrainingData ∧
    (create_snapshot tk train br key).2.classifiers = br.classifiers := by
  simp [create_snapshot, hfresh, hempty]

theorem create_snapshot_no_training_data_witness :
    (alookup "empty" (⟨[], [], [], [], false⟩ : BR Unit).snapshots = none) ∧
    (trainData tkTriv (⟨[], [], [], [], false⟩ : BR Unit).data = []) ∧
    (create_snapshot tkTriv (fun _ => ()) ⟨[], [], [], [], false⟩ "empty").1 = .noTrainingData ∧
    (create_snapshot tkTriv (fun _ => ()) ⟨[], [], [], [], false⟩ "empty").2.classifiers = [] :=
  ⟨rfl, rfl,
    (create_snapshot_no_training_data tkTriv (fun _ => ()) ⟨[], [], [], [], false⟩ "empty" rfl rfl).1,
    (create_snapshot_no_training_data tkTriv (fun _ => ()) ⟨[], [], [], [], false⟩ "empty" rfl rfl).2⟩

/-- C9: on a fresh name with an empty training set, `create_snapshot` records
`self.snapshots[key] = self.data` BEFORE `train()` raises, so the failing
call mutates the snapshot store (while registering no classifier), and every
subsequent call with the same name takes the existence check and signals
`AlreadyExists` without further mutation. -/
theorem create_snapshot_records_before_failure {Clsf : Type} (tk : Toolkit)
    (train : List (Dict × Label) → Clsf) (br : BR Clsf) (key : String)
    (hfresh : alookup key br.snapshots = none)
    (hempty : trainData tk br.data = []) :
    (create_snapshot tk train br key).1 = .noTrainingData ∧
    alookup key (create_snapshot tk train br key).2.snapshots = some br.data ∧
    (create_snapshot tk train br key).2.classifiers = br.classifiers ∧
    (create_snapshot tk train (create_snapshot tk train br key).2 key).1 = .alreadyExists ∧
    (create_snapshot tk train (create_snapshot tk train br key).2 key).2 =
      (create_snapshot tk train br key).2 := by
  have hstate : create_snapshot tk train br key =
      (.noTrainingData, { br with snapshots := aset key br.data br.snapshots }) := by
    simp [create_snapshot, hfresh, hempty]
  have hlook : alookup key (aset key br.data br.snapshots) = some br.data := by
    simp [alookup_aset]
  refine ⟨by rw [hstate], by rw [hstate]; exact hlook, by rw [hstate], ?_, ?_⟩ <;>
    rw [hstate] <;> simp [create_snapshot, hlook]

theorem create_snapshot_records_before_failure_witness :
    (alookup "empty" (⟨[], [], [], [], false⟩ : BR Unit).snapshots = none) ∧
    (create_snapshot tkTriv (fun _ => ()) ⟨[], [], [], [], false⟩ "empty").1 = .noTrainingData ∧
    (create_snapshot tkTriv (fun _ => ())
      (create_snapshot tkTriv (fun _ => ()) (⟨[], [], [], [], false⟩ : BR Unit) "empty").2 "empty").1 =
      .alreadyExists :=
  ⟨rfl,
    (create_snapshot_records_before_failure tkTriv (fun _ => ()) ⟨[], [], [], [], false⟩ "empty" rfl rfl).1,
    (create_snapshot_records_before_failure tkTriv (fun _ => ()) ⟨[], [], [], [], false⟩ "empty" rfl rfl).2.2.2.1⟩

/-- C10: `respond` with `use_history`, a speaker, and `commit_history` on an
instance built without a database first appends the input sentence and the
generated response to the speaker's in-memory history and then hits
`self.conn.cursor()` with `self.conn = None`, raising `AttributeError`: no
string is returned to the caller and the history mutation stays in place. -/
theorem respond_history_mutated_before_db_failure {Clsf : Type} (tk : Toolkit)
    (classify : Clsf → Dict → Label) (br : BR Clsf)
    (snapshot sentence sp : String) (limit recLim : Nat) (c : Clsf)
    (hdb : br.hasDb = false) (hc : alookup snapshot br.classifiers = some c) :
    respondFull tk classify br snapshot sentence (some sp) true true limit recLim =
      (none,
       { br with history := aset sp ((alookup sp br.history).getD [] ++
           [sentence, pyJoinSpace (respond_words tk (classify c) sentence
              ((alookup sp br.history).getD []) limit recLim)]) br.history }) := by
  simp [respondFull, hc, hdb]

theorem respond_history_mutated_before_db_failure_witness :
    ((⟨[], [("s", ())], [], [], false⟩ : BR Unit).hasDb = false) ∧
    (alookup "s" (⟨[], [("s", ())], [], [], false⟩ : BR Unit).classifiers = some ()) ∧
    respondFull tkTriv (fun _ _ => Label.term) ⟨[], [("s", ())], [], [], false⟩
        "s" "hi" (some "bob") true true 1000 5 =
      (none, ⟨[], [("s", ())], [("bob", ["hi", ""])], [], false⟩) := by
  refine ⟨rfl, rfl, ?_⟩
  have h := respond_history_mutated_before_db_failure tkTriv (fun _ _ => Label.term)
    (⟨[], [("s", ())], [], [], false⟩ : BR Unit) "s" "hi" "bob" 1000 5 () rfl rfl
  rw [h]
  rfl

/-- C2 counterexample: with `limit = 0` and a classifier that emits `"a"`,
`respond` appends one word before the `len(response) >= limit` check fires,
and returns `"a"`, whose single-space split has 1 > 0 words — the claimed
bound fails for `limit = 0`. -/
theorem respond_limit_zero_exceeds :
    (@respondFull Unit tkTriv (fun _ _ => .word "a") ⟨[], [("s", ())], [], [], false⟩
        "s" "x" none true true 0 5).1 = some "a" ∧
    ¬ ((pySplitSpace "a").length ≤ 0) := by decide

/-- C6 counterexample: with `recursion_limit = 0`, the first repeat makes
`recurse = 1 > 0`, and the truncation `response[:-recurse + 1]` is
`response[:0]`, which empties the whole response instead of removing the
claimed `recurse - 1 = 0` trailing words; a full run with a constant
classifier accordingly returns no words at all. -/
theorem truncate_recursion_limit_zero :
    gen_step tkTriv (fun _ => .word "a") "x" [] 10 ⟨["a"], 1, some "a", 0, 0⟩ = .halt [] ∧
    ([] : List String) ≠ ["a"].take (["a"].length - (1 - 1)) ∧
    respond_words tkTriv (fun _ => .word "a") "x" [] 10 0 = [] := by decide

theorem pySliceTo_length_le {α : Type} (l : List α) (k : Int) :
    (pySliceTo l k).length ≤ l.length := by
  unfold pySliceTo
  split_ifs <;> simp [List.length_take]

theorem gen_step_term (tk : Toolkit) (classify : Dict → Label) (sentence : String)
    (history : List String) (limit : Nat) (s : GenState)
    (hc : classify (sentence_data tk sentence history true [("response_index", .vNat s.i)]) = .term) :
    gen_step tk classify sentence history limit s = .halt s.response := by
  unfold gen_step
  rw [hc]

theorem gen_step_word (tk : Toolkit) (classify : Dict → Label) (sentence : String)
    (history : List String) (limit : Nat) (s : GenState) (w : String)
    (hc : classify (sentence_data tk sentence history true [("response_index", .vNat s.i)]) = .word w) :
    gen_step tk classify sentence history limit s =
      if (if some w = s.last then s.recurse + 1 else s.recurse) > s.recLim then
        .halt (pySliceTo s.response
          (1 - (((if some w = s.last then s.recurse + 1 else s.recurse : Nat)) : Int)))
      else if (s.response ++ [w]).length ≥ limit then .halt (s.response ++ [w])
      else .cont ⟨s.response ++ [w], s.i + 1, some w,
        if some w = s.last then s.recurse + 1 else s.recurse,
        min s.recLim (limit - (s.response ++ [w]).length)⟩ := by
  unfold gen_step
  rw [hc]

theorem gen_step_halt_length (tk : Toolkit) (classify : Dict → Label)
    (sentence : String) (history : List String) (limit : Nat) (s : GenState)
    (r : List String) (h : gen_step tk classify sentence history limit s = .halt r)
    (hs : s.response.length < limit) : r.length ≤ limit := by
  cases hcl : classify (sentence_data tk sentence history true [("response_index", .vNat s.i)]) with
  | term =>
    rw [gen_step_term tk classify sentence history limit s hcl] at h
    injection h with h
    subst h
    omega
  | word w =>
    rw [gen_step_word tk classify sentence history limit s w hcl] at h
    split_ifs at h <;> injection h with h <;> subst h <;>
      first
        | exact le_trans (pySliceTo_length_le _ _) (le_of_lt hs)
        | (simp only [List.length_append, List.length_singleton]; omega)

theorem gen_step_cont_length (tk : Toolkit) (classify : Dict → Label)
    (sentence : String) (history : List String) (limit : Nat) (s s' : GenState)
    (h : gen_step tk classify sentence history limit s = .cont s') :
    s'.response.length < limit := by
  cases hcl : classify (sentence_data tk sentence history true [("response_index", .vNat s.i)]) with
  | term =>
    rw [gen_step_term tk classify sentence history limit s hcl] at h
    exact absurd h (by simp)
  | word w =>
    rw [gen_step_word tk classify sentence history limit s w hcl] at h
    split_ifs at h <;> injection h with h <;> subst h <;>
      (show (s.response ++ [w]).length < limit
       omega)

theorem gen_loopF_length (tk : Toolkit) (classify : Dict → Label)
    (sentence : String) (history : List String) (limit : Nat) (fuel : Nat)
    (s : GenState) (hs : s.response.length < limit) :
    (gen_loopF tk classify sentence history limit fuel s).length ≤ limit := by
  induction fuel generalizing s with
  | zero => exact Nat.le_of_lt hs
  | succ fuel ih =>
    unfold gen_loopF
    cases h : gen_step tk classify sentence history limit s with
    | halt r => exact gen_step_halt_length tk classify sentence history limit s r h hs
    | cont s' => exact ih s' (gen_step_cont_length tk classify sentence history limit s s' h)

theorem pySliceTo_subset {α : Type} (l : List α) (k : Int) : pySliceTo l k ⊆ l := by
  unfold pySliceTo
  split_ifs <;>
    first
      | exact List.take_subset _ _
      | exact List.nil_subset _

theorem gen_step_words_from_classify (tk : Toolkit) (classify : Dict → Label)
    (sentence : String) (history : List String) (limit : Nat) (s : GenState) :
    (∀ r, gen_step tk classify sentence history limit s = .halt r →
      ∀ x ∈ r, x ∈ s.response ∨ ∃ d, classify d = .word x) ∧
    (∀ s', gen_step tk classify sentence history limit s = .cont s' →
      ∀ x ∈ s'.response, x ∈ s.response ∨ ∃ d, classify d = .word x) := by
  cases hcl : classify (sentence_data tk sentence history true [("response_index", .vNat s.i)]) with
  | term =>
    rw [gen_step_term tk classify sentence history limit s hcl]
    refine ⟨fun r h x hx => ?_, fun s' h => absurd h (by simp)⟩
    injection h with h
    exact Or.inl (h ▸ hx)
  | word w =>
    rw [gen_step_word tk classify sentence history limit s w hcl]
    have happ : ∀ x, x ∈ s.response ++ [w] →
        x ∈ s.response ∨ ∃ d, classify d = .word x := by
      intro x hx
      rcases List.mem_append.mp hx with hx | hx
      · exact Or.inl hx
      · exact Or.inr ⟨_, by rw [hcl, List.mem_singleton.mp hx]⟩
    constructor
    · intro r h x hx
      split_ifs at h <;> injection h with h <;> subst h <;>
        first
          | exact Or.inl (pySliceTo_subset _ _ hx)
          | exact happ x hx
    · intro s' h x hx
      split_ifs at h <;> injection h with h <;> subst h <;> exact happ x hx

theorem gen_loopF_words_from_classify (tk : Toolkit) (classify : Dict → Label)
    (sentence : String) (history : List String) (limit fuel : Nat) (s : GenState)
    (x : String) (hx : x ∈ gen_loopF tk classify sentence history limit fuel s) :
    x ∈ s.response ∨ ∃ d, classify d = .word x := by
  induction fuel generalizing s with
  | zero => exact Or.inl hx
  | succ fuel ih =>
    unfold gen_loopF at hx
    cases h : gen_step tk classify sentence history limit s with
    | halt r =>
      rw [h] at hx
      exact (gen_step_words_from_classify tk classify sentence history limit s).1 r h x hx
    | cont s' =>
      rw [h] at hx
      rcases ih s' hx with hmem | hd
      · exact (gen_step_words_from_classify tk classify sentence history limit s).2 s' h x hmem
      · exact Or.inr hd

theorem splitCh_no_space (w : List Char) (hw : ' ' ∉ w) : splitCh w = [w] := by
  induction w with
  | nil => rfl
  | cons c rest ih =>
    have hc : ¬ c = ' ' := fun h => hw (h ▸ List.mem_cons_self c rest)
    have hrest : ' ' ∉ rest := fun h => hw (List.mem_cons_of_mem c h)
    simp [splitCh, hc, ih hrest]

theorem splitCh_append_space (w t : List Char) (hw : ' ' ∉ w) :
    splitCh (w ++ ' ' :: t) = w :: splitCh t := by
  induction w with
  | nil => simp [splitCh]
  | cons c rest ih =>
    have hc : ¬ c = ' ' := fun h => hw (h ▸ List.mem_cons_self c rest)
    have hrest : ' ' ∉ rest := fun h => hw (List.mem_cons_of_mem c h)
    rw [List.cons_append]
    simp [splitCh, hc, ih hrest]

theorem splitCh_joinCh (ps : List (List Char)) (hne : ps ≠ [])
    (hsp : ∀ p ∈ ps, ' ' ∉ p) : splitCh (joinCh ps) = ps := by
  induction ps with
  | nil => exact absurd rfl hne
  | cons w ps ih =>
    cases ps with
    | nil => exact splitCh_no_space w (hsp w (List.mem_cons_self w []))
    | cons p ps' =>
      have hw : ' ' ∉ w := hsp w (List.mem_cons_self _ _)
      have : joinCh (w :: p :: ps') = w ++ ' ' :: joinCh (p :: ps') := rfl
      rw [this, splitCh_append_space w _ hw,
        ih (by simp) (fun q hq => hsp q (List.mem_cons_of_mem w hq))]

theorem pySplitSpace_pyJoinSpace (l : List String) (hne : l ≠ [])
    (hsp : ∀ w ∈ l, ' ' ∉ w.data) : pySplitSpace (pyJoinSpace l) = l := by
  unfold pySplitSpace pyJoinSpace
  have hdata : (String.mk (joinCh (l.map String.data))).data = joinCh (l.map String.data) := rfl
  rw [hdata, splitCh_joinCh (l.map String.data) (by simpa using hne)
    (by intro p hp; rcases List.mem_map.mp hp with ⟨w, hw, rfl⟩; exact hsp w hw)]
  rw [List.map_map]
  show List.map (fun s => String.mk s.data) l = l
  simp

/-- C2 (amended): for every call to `respond` that returns a string, if
`limit ≥ 1` and every word label the classifier can emit is free of space
characters (as are all labels arising from training, which are pieces of a
single-space split), then the returned string split on single spaces has at
most `limit` words.  For `limit = 0` the bound fails (see the
counterexample), since one word is appended before the hard-cap check and
even the empty string splits into one piece. -/
theorem respond_split_length_le_limit {Clsf : Type} (tk : Toolkit)
    (classify : Clsf → Dict → Label) (br : BR Clsf) (snapshot sentence : String)
    (speaker : Option String) (use_history commit_history : Bool)
    (limit recursion_limit : Nat) (txt : String)
    (hw : ∀ cl d w, classify cl d = .word w → ' ' ∉ w.data)
    (hl : 1 ≤ limit)
    (hres : (respondFull tk classify br snapshot sentence speaker use_history
        commit_history limit recursion_limit).1 = some txt) :
    (pySplitSpace txt).length ≤ limit := by
  have key : ∀ (c : Clsf) (history : List String),
      (pySplitSpace (pyJoinSpace (respond_words tk (classify c) sentence history
        limit recursion_limit))).length ≤ limit := by
    intro c history
    set ws := respond_words tk (classify c) sentence history limit recursion_limit with hws
    have hlen : ws.length ≤ limit :=
      gen_loopF_length tk (classify c) sentence history limit (limit + 1)
        ⟨[], 0, none, 0, recursion_limit⟩ (by simpa using hl)
    rcases eq_or_ne ws [] with hz | hz
    · rw [hz]
      exact hl
    · rw [pySplitSpace_pyJoinSpace ws hz ?_]
      · exact hlen
      · intro w hwmem
        rcases gen_loopF_words_from_classify tk (classify c) sentence history limit
          (limit + 1) ⟨[], 0, none, 0, recursion_limit⟩ w hwmem with hmem | ⟨d, hd⟩
        · exact absurd hmem (List.not_mem_nil w)
        · exact hw c d w hd
  unfold respondFull at hres
  cases hcl : alookup snapshot br.classifiers with
  | none =>
    rw [hcl] at hres
    exact absurd hres (by simp)
  | some c =>
    rw [hcl] at hres
    rcases speaker with _ | sp
    · cases use_history <;>
        (rw [← Option.some_inj.mp hres]; apply key)
    · cases use_history with
      | false =>
        rw [← Option.some_inj.mp hres]
        apply key
      | true =>
        simp only [] at hres
        split_ifs at hres <;>
          (rw [← Option.some_inj.mp hres]; apply key)

theorem respond_split_length_le_limit_witness :
    (1 ≤ 1) ∧
    ((@respondFull Unit tkTriv (fun _ _ => Label.term) ⟨[], [("s", ())], [], [], true⟩
        "s" "x" none true true 1 5).1 = some "") ∧
    (pySplitSpace "").length ≤ 1 :=
  ⟨Nat.le_refl 1, by decide,
    respond_split_length_le_limit tkTriv (fun _ _ => Label.term)
      ⟨[], [("s", ())], [], [], true⟩ "s" "x" none true true 1 5 ""
      (fun _ _ _ h => by injection h) (Nat.le_refl 1) (by decide)⟩

/-- C6 (amended): whenever the repeat counter exceeds the current
`recursion_limit` and `recursion_limit ≥ 1`, generation stops and exactly the
trailing `recurse - 1` words are removed from the accumulated response (in
any state reachable by the loop, where `recurse ≤ len(response)`).  At
`recursion_limit = 0` the slice `response[:-recurse + 1]` is `response[:0]`
and clears the whole response instead (see the counterexample); and because
the counter is never reset (C1), the removed words need not all be equal. -/
theorem gen_step_truncates_trailing_words (tk : Toolkit) (classify : Dict → Label)
    (sentence : String) (history : List String) (limit : Nat) (s : GenState)
    (w : String)
    (hc : classify (sentence_data tk sentence history true [("response_index", .vNat s.i)]) = .word w)
    (hrl : 1 ≤ s.recLim)
    (hinv : s.recurse ≤ s.response.length)
    (ht : (if some w = s.last then s.recurse + 1 else s.recurse) > s.recLim) :
    gen_step tk classify sentence history limit s =
      .halt (s.response.take (s.response.length -
        ((if some w = s.last then s.recurse + 1 else s.recurse) - 1))) ∧
    (if some w = s.last then s.recurse + 1 else s.recurse) - 1 ≤ s.response.length := by
  have hle : (if some w = s.last then s.recurse + 1 else s.recurse) ≤ s.recurse + 1 := by
    split <;> omega
  have hr2 : 2 ≤ (if some w = s.last then s.recurse + 1 else s.recurse) := by omega
  refine ⟨?_, by omega⟩
  rw [gen_step_word tk classify sentence history limit s w hc, if_pos ht]
  unfold pySliceTo
  rw [if_pos (show (1 : Int) -
      (((if some w = s.last then s.recurse + 1 else s.recurse : Nat)) : Int) < 0 by omega)]
  congr 1
  congr 1
  omega

theorem gen_step_truncates_trailing_words_witness :
    gen_step tkTriv (fun _ => .word "a") "x" [] 10 ⟨["a"], 1, some "a", 1, 1⟩ =
      .halt [] := by
  have h := gen_step_truncates_trailing_words tkTriv (fun _ => .word "a") "x" [] 10
    ⟨["a"], 1, some "a", 1, 1⟩ "a" rfl (by decide) (by decide) (by decide)
  exact h.1.trans (by decide)

theorem enum_eq_range_map {α : Type} (l : List α) (d : α) :
    l.enum = (List.range l.length).map (fun i => (i, l.getD i d)) := by
  apply List.ext_getElem
  · simp [List.enum_length]
  · intro n h1 h2
    have hn : n < l.length := by simpa [List.enum_length] using h1
    rw [List.getElem_enum]
    rw [List.getElem_map]
    rw [List.getElem_range]
    rw [List.getD_eq_getElem l d hn]

theorem dropLast_enum_eq (conv : List String) :
    conv.dropLast.enum =
      (List.range (conv.length - 1)).map (fun i => (i, conv.getD i "")) := by
  rw [enum_eq_range_map conv.dropLast ""]
  rw [List.length_dropLast]
  apply List.map_congr_left
  intro i hi
  have hi1 : i < conv.length - 1 := List.mem_range.mp hi
  have hi2 : i < conv.dropLast.length := by simp [List.length_dropLast]; omega
  have hi3 : i < conv.length := by omega
  rw [List.getD_eq_getElem conv.dropLast "" hi2, List.getD_eq_getElem conv "" hi3,
    List.getElem_dropLast]

theorem convExamples_eq_claim (tk : Toolkit) (conv : List String) :
    convExamples tk conv = claimConvExamplesSp tk conv := by
  unfold convExamples claimConvExamplesSp
  rw [dropLast_enum_eq conv, List.flatMap_map]

/-- C3 (amended): the training set synthesized by `create_snapshot` is
exactly the in-order concatenation, over the conversations of the snapshot
data, the sentence positions `i` from `0` to `len(conversation) - 2`, and the
positions `wi` of `nextWords`, of the single example whose feature vector is
the extraction of `conversation[i]` with history `conversation[:i]`, context
enabled and `response_index = wi`, and whose label is `nextWords[wi]` — where
`nextWords` is `conversation[i+1]` split on SINGLE SPACES (Python
`split(' ')`, keeping empty pieces), not on general whitespace, followed by
50 terminator labels. -/
theorem trainData_eq_claim_space_split (tk : Toolkit) (data : List (List String)) :
    trainData tk data = claimTrainingSetSp tk data := by
  unfold trainData claimTrainingSetSp
  have h : convExamples tk = claimConvExamplesSp tk :=
    funext (fun conv => convExamples_eq_claim tk conv)
  rw [h]

/-- C3 counterexample: for the conversation `["a", "b  c"]` (double space),
the claim's whitespace split makes `nextWords[1] = "c"`, but the source
splits on single spaces (`['b', '', 'c']`), so the training set contains no
example with feature vector `extract("a", [], response_index=1)` and label
`"c"` — the claimed "exactly one" such example fails. -/
theorem trainData_whitespace_mismatch :
    (claimNextWords "b  c").getD 1 .term = .word "c" ∧
    (sentence_data tkOne "a" [] true [("response_index", .vNat 1)], Label.word "c") ∉
      trainData tkOne [["a", "b  c"]] := by decide

theorem digitChar_val (m : Nat) (h : m < 10) : (Nat.digitChar m).toNat - 48 = m := by
  interval_cases m <;> decide

theorem digitChar_isDigit (m : Nat) (h : m < 10) : (Nat.digitChar m).isDigit := by
  interval_cases m <;> decide

theorem decode_digitsGo (fuel n : Nat) (h : n < fuel) :
    decodeDigits (digitsGo fuel n) = n := by
  induction fuel generalizing n with
  | zero => omega
  | succ fuel ih =>
    by_cases h10 : n < 10
    · show decodeDigits
        (if n < 10 then [Nat.digitChar n]
         else digitsGo fuel (n / 10) ++ [Nat.digitChar (n % 10)]) = n
      rw [if_pos h10]
      show 0 * 10 + ((Nat.digitChar n).toNat - 48) = n
      rw [digitChar_val n h10]
      omega
    · have hrec : digitsGo (fuel + 1) n =
          digitsGo fuel (n / 10) ++ [Nat.digitChar (n % 10)] := by
        show (if n < 10 then [Nat.digitChar n]
          else digitsGo fuel (n / 10) ++ [Nat.digitChar (n % 10)]) = _
        rw [if_neg h10]
      rw [hrec]
      unfold decodeDigits
      rw [List.foldl_append]
      show decodeDigits (digitsGo fuel (n / 10)) * 10 + ((Nat.digitChar (n % 10)).toNat - 48) = n
      rw [ih (n / 10) (by omega), digitChar_val (n % 10) (Nat.mod_lt n (by omega))]
      omega

theorem digitsOf_inj (m n : Nat) (h : digitsOf m = digitsOf n) : m = n := by
  have hm := decode_digitsGo (m + 1) m (Nat.lt_succ_self m)
  have hn := decode_digitsGo (n + 1) n (Nat.lt_succ_self n)
  unfold digitsOf at h
  rw [← hm, ← hn, h]

theorem digitsGo_all_digit (fuel n : Nat) (h : n < fuel) :
    ∀ c ∈ digitsGo fuel n, c.isDigit := by
  induction fuel generalizing n with
  | zero => omega
  | succ fuel ih =>
    intro c hc
    by_cases h10 : n < 10
    · rw [show digitsGo (fuel + 1) n = [Nat.digitChar n] from by
        show (if n < 10 then _ else _) = _; rw [if_pos h10]] at hc
      rw [List.mem_singleton.mp hc]
      exact digitChar_isDigit n h10
    · rw [show digitsGo (fuel + 1) n = digitsGo fuel (n / 10) ++ [Nat.digitChar (n % 10)] from by
        show (if n < 10 then _ else _) = _; rw [if_neg h10]] at hc
      rcases List.mem_append.mp hc with hc | hc
      · exact ih (n / 10) (by omega) c hc
      · rw [List.mem_singleton.mp hc]
        exact digitChar_isDigit (n % 10) (Nat.mod_lt n (by omega))

theorem digitsOf_ne_neg (a : Nat) (l : List Char) : digitsOf a ≠ '-' :: l := by
  intro h
  have hmem : '-' ∈ digitsOf a := by
    rw [h]
    exact List.mem_cons_self '-' l
  have := digitsGo_all_digit (a + 1) a (Nat.lt_succ_self a) '-' hmem
  exact absurd this (by decide)

theorem sep_append_inj (u : List Char) : ∀ (v s t : List Char), '#' ∉ u → '#' ∉ v →
    u ++ ' ' :: '#' :: s = v ++ ' ' :: '#' :: t → u = v ∧ s = t := by
  induction u with
  | nil =>
    intro v s t _ hv h
    cases v with
    | nil =>
      rw [List.nil_append, List.nil_append] at h
      injection h with _ h
      injection h with _ h
      exact ⟨rfl, h⟩
    | cons b v' =>
      rw [List.nil_append, List.cons_append] at h
      injection h with h1 h2
      cases v' with
      | nil =>
        rw [List.nil_append] at h2
        injection h2 with h3 _
        exact absurd h3 (by decide)
      | cons b2 v'' =>
        rw [List.cons_append] at h2
        injection h2 with h3 _
        refine absurd ?_ hv
        rw [h3]
        exact List.mem_cons_of_mem b (List.mem_cons_self b2 v'')
  | cons a u' ih =>
    intro v s t hu hv h
    cases v with
    | nil =>
      rw [List.nil_append, List.cons_append] at h
      injection h with h1 h2
      cases u' with
      | nil =>
        rw [List.nil_append] at h2
        injection h2 with h3 _
        exact absurd h3.symm (by decide)
      | cons a2 u'' =>
        rw [List.cons_append] at h2
        injection h2 with h3 _
        refine absurd ?_ hu
        rw [← h3]
        exact List.mem_cons_of_mem a (List.mem_cons_self a2 u'')
    | cons b v' =>
      rw [List.cons_append, List.cons_append] at h
      injection h with h1 h2
      subst h1
      have hu' : '#' ∉ u' := fun hm => hu (List.mem_cons_of_mem a hm)
      have hv' : '#' ∉ v' := fun hm => hv (List.mem_cons_of_mem a hm)
      obtain ⟨he, hst⟩ := ih v' s t hu' hv' h2
      exact ⟨by rw [he], hst⟩

theorem famChars_no_hash (f : Fam) : '#' ∉ famChars f := by
  cases f <;> decide

theorem famChars_inj (f g : Fam) (h : famChars f = famChars g) : f = g := by
  cases f <;> cases g <;> first | rfl | exact absurd h (by decide)

@[simp] theorem fwdKey_inj_iff (f g : Fam) (i j : Nat) :
    fwdKey f i = fwdKey g j ↔ f = g ∧ i = j := by
  constructor
  · intro h
    have hd : famChars f ++ ' ' :: '#' :: digitsOf i =
        famChars g ++ ' ' :: '#' :: digitsOf j := congrArg String.data h
    obtain ⟨h1, h2⟩ := sep_append_inj (famChars f) (famChars g) (digitsOf i) (digitsOf j)
      (famChars_no_hash f) (famChars_no_hash g) hd
    exact ⟨famChars_inj f g h1, digitsOf_inj i j h2⟩
  · rintro ⟨rfl, rfl⟩
    rfl

@[simp] theorem bwdKey_inj_iff (f g : Fam) (i j : Nat) :
    bwdKey f i = bwdKey g j ↔ f = g ∧ i = j := by
  constructor
  · intro h
    have hd : famChars f ++ ' ' :: '#' :: '-' :: digitsOf i =
        famChars g ++ ' ' :: '#' :: '-' :: digitsOf j := congrArg String.data h
    obtain ⟨h1, h2⟩ := sep_append_inj (famChars f) (famChars g) ('-' :: digitsOf i) ('-' :: digitsOf j)
      (famChars_no_hash f) (famChars_no_hash g) hd
    injection h2 with _ h2
    exact ⟨famChars_inj f g h1, digitsOf_inj i j h2⟩
  · rintro ⟨rfl, rfl⟩
    rfl

@[simp] theorem fwdKey_eq_bwdKey_iff (f g : Fam) (i j : Nat) :
    (fwdKey f i = bwdKey g j) ↔ False := by
  refine ⟨fun h => ?_, False.elim⟩
  have hd : famChars f ++ ' ' :: '#' :: digitsOf i =
      famChars g ++ ' ' :: '#' :: '-' :: digitsOf j := congrArg String.data h
  obtain ⟨h1, h2⟩ := sep_append_inj (famChars f) (famChars g) (digitsOf i) ('-' :: digitsOf j)
    (famChars_no_hash f) (famChars_no_hash g) hd
  exact digitsOf_ne_neg i (digitsOf j) h2

@[simp] theorem bwdKey_eq_fwdKey_iff (f g : Fam) (i j : Nat) :
    (bwdKey f i = fwdKey g j) ↔ False := by
  refine ⟨fun h => ?_, False.elim⟩
  exact (fwdKey_eq_bwdKey_iff g f j i).mp h.symm

theorem ne_of_hash_mem {k k' : String} (h1 : '#' ∈ k'.data) (h2 : '#' ∉ k.data) :
    ¬(k = k') := fun he => h2 (by rw [he]; exact h1)

theorem hash_mem_fwdKey (f : Fam) (i : Nat) : '#' ∈ (fwdKey f i).data := by
  show '#' ∈ famChars f ++ ' ' :: '#' :: digitsOf i
  exact List.mem_append_right _ (List.mem_cons_of_mem _ (List.mem_cons_self _ _))

theorem hash_mem_bwdKey (f : Fam) (k : Nat) : '#' ∈ (bwdKey f k).data := by
  show '#' ∈ famChars f ++ ' ' :: '#' :: '-' :: digitsOf k
  exact List.mem_append_right _ (List.mem_cons_of_mem _ (List.mem_cons_self _ _))

theorem fwdKey_ne_ctxKey (f : Fam) (i j : Nat) (k : String) : fwdKey f i ≠ ctxKey j k := by
  cases f <;> intro h <;>
    (have hd := congrArg String.data h; simp [famChars, fwdKey, ctxKey] at hd)

theorem bwdKey_ne_ctxKey (f : Fam) (i j : Nat) (k : String) : bwdKey f i ≠ ctxKey j k := by
  cases f <;> intro h <;>
    (have hd := congrArg String.data h; simp [famChars, bwdKey, ctxKey] at hd)

theorem wlast_append (k : String) (l1 l2 : List (String × FeatVal)) :
    wlast k (l1 ++ l2) =
      match wlast k l2 with
      | some v => some v
      | none => wlast k l1 := by
  induction l1 with
  | nil =>
    rw [List.nil_append]
    cases wlast k l2 <;> simp [wlast]
  | cons p l1 ih =>
    rw [List.cons_append]
    show (match wlast k (l1 ++ l2) with
      | some v => some v
      | none => if p.1 = k then some p.2 else none) = _
    rw [ih]
    cases hw2 : wlast k l2 <;> cases hw1 : wlast k l1 <;> simp [wlast, hw1]

theorem wlast_eq_none (k : String) (ws : List (String × FeatVal))
    (h : ∀ p ∈ ws, p.1 ≠ k) : wlast k ws = none := by
  induction ws with
  | nil => rfl
  | cons p ws ih =>
    show (match wlast k ws with
      | some v => some v
      | none => if p.1 = k then some p.2 else none) = none
    rw [ih (fun q hq => h q (List.mem_cons_of_mem p hq))]
    rw [if_neg (h p (List.mem_cons_self p ws))]

theorem alookup_applyWrites (k : String) (ws : List (String × FeatVal)) (d : Dict) :
    alookup k (applyWrites ws d) =
      match wlast k ws with
      | some v => some v
      | none => alookup k d := by
  induction ws generalizing d with
  | nil => rfl
  | cons p ws ih =>
    show alookup k (applyWrites ws (aset p.1 p.2 d)) = _
    rw [ih]
    cases hw : wlast k ws with
    | some v => simp [wlast, hw]
    | none =>
      by_cases hpk : p.1 = k <;> simp [wlast, hw, hpk, alookup_aset]

theorem alookup_applyWrites_of_ne (k : String) (ws : List (String × FeatVal)) (d : Dict)
    (h : ∀ p ∈ ws, p.1 ≠ k) : alookup k (applyWrites ws d) = alookup k d := by
  rw [alookup_applyWrites, wlast_eq_none k ws h]

theorem wlast_flatMap_blocks (k : String) (block : Nat → List (String × FeatVal))
    (v : FeatVal) (i : Nat) (l : List Nat)
    (hsome : wlast k (block i) = some v)
    (hnone : ∀ j ∈ l, j ≠ i → wlast k (block j) = none) :
    wlast k (l.flatMap block) = if i ∈ l then some v else none := by
  induction l with
  | nil => simp [wlast]
  | cons j l ih =>
    rw [List.flatMap_cons, wlast_append]
    have ihh := ih (fun j' hj' => hnone j' (List.mem_cons_of_mem j hj'))
    rw [ihh]
    by_cases hji : j = i
    · subst hji
      by_cases hil : j ∈ l
      · simp [hil]
      · simp [hil, hsome]
    · have hij : ¬ i = j := fun h => hji h.symm
      rw [hnone j (List.mem_cons_self j l) hji]
      by_cases hil : i ∈ l
      · simp [hil]
      · simp [hil, hij]

theorem wlast_tokenWrites_fwd (f : Fam) (i n : Nat) (w t : String) (st : String → String) :
    wlast (fwdKey f i) (tokenWrites i n w t st) = some (famValue f w t st) := by
  cases f <;> simp [tokenWrites, wlast, famValue]

theorem wlast_tokenWrites_bwd (f : Fam) (i n : Nat) (w t : String) (st : String → String) :
    wlast (bwdKey f (n - i)) (tokenWrites i n w t st) = some (famValue f w t st) := by
  cases f <;> simp [tokenWrites, wlast, famValue]

theorem wlast_tokenWrites_fwd_ne (f : Fam) (i j n : Nat) (w t : String)
    (st : String → String) (hij : j ≠ i) :
    wlast (fwdKey f i) (tokenWrites j n w t st) = none := by
  simp [tokenWrites, wlast, hij]

theorem wlast_tokenWrites_bwd_ne (f : Fam) (i j n : Nat) (w t : String)
    (st : String → String) (hij : n - j ≠ n - i) :
    wlast (bwdKey f (n - i)) (tokenWrites j n w t st) = none := by
  simp [tokenWrites, wlast, hij]

theorem wlast_scalar_fwd (sent : String) (n : Nat) (f : Fam) (i : Nat) :
    wlast (fwdKey f i) (scalarWrites sent n) = none := by
  have h1 : ¬(("total chars" : String) = fwdKey f i) :=
    ne_of_hash_mem (hash_mem_fwdKey f i) (by decide)
  have h2 : ¬(("total words" : String) = fwdKey f i) :=
    ne_of_hash_mem (hash_mem_fwdKey f i) (by decide)
  have h3 : ¬(("total tokens" : String) = fwdKey f i) :=
    ne_of_hash_mem (hash_mem_fwdKey f i) (by decide)
  simp [scalarWrites, wlast, h1, h2, h3]

theorem wlast_scalar_bwd (sent : String) (n : Nat) (f : Fam) (k : Nat) :
    wlast (bwdKey f k) (scalarWrites sent n) = none := by
  have h1 : ¬(("total chars" : String) = bwdKey f k) :=
    ne_of_hash_mem (hash_mem_bwdKey f k) (by decide)
  have h2 : ¬(("total words" : String) = bwdKey f k) :=
    ne_of_hash_mem (hash_mem_bwdKey f k) (by decide)
  have h3 : ¬(("total tokens" : String) = bwdKey f k) :=
    ne_of_hash_mem (hash_mem_bwdKey f k) (by decide)
  simp [scalarWrites, wlast, h1, h2, h3]

theorem alookup_sentence_base_fwd (tk : Toolkit) (sent : String) (kwargs : Dict)
    (f : Fam) (i : Nat) (hi : i < (tk.tokenize sent).length) :
    alookup (fwdKey f i) (sentence_base tk sent kwargs) =
      some (famValue f ((tk.tokenize sent).getD i "")
        (tk.tagOf (tk.tokenize sent) i) tk.stem) := by
  show alookup (fwdKey f i)
      (applyWrites (scalarWrites sent (tk.tokenize sent).length ++
        (List.range (tk.tokenize sent).length).flatMap
          (fun j => tokenWrites j (tk.tokenize sent).length ((tk.tokenize sent).getD j "")
            (tk.tagOf (tk.tokenize sent) j) tk.stem)) kwargs) = _
  rw [alookup_applyWrites, wlast_append]
  rw [wlast_flatMap_blocks (fwdKey f i)
    (fun j => tokenWrites j (tk.tokenize sent).length ((tk.tokenize sent).getD j "")
      (tk.tagOf (tk.tokenize sent) j) tk.stem)
    (famValue f ((tk.tokenize sent).getD i "") (tk.tagOf (tk.tokenize sent) i) tk.stem)
    i (List.range (tk.tokenize sent).length)
    (wlast_tokenWrites_fwd f i (tk.tokenize sent).length _ _ _)
    (fun j _ hne => wlast_tokenWrites_fwd_ne f i j (tk.tokenize sent).length _ _ _ hne)]
  rw [if_pos (List.mem_range.mpr hi)]

theorem alookup_sentence_base_bwd (tk : Toolkit) (sent : String) (kwargs : Dict)
    (f : Fam) (i : Nat) (hi : i < (tk.tokenize sent).length) :
    alookup (bwdKey f ((tk.tokenize sent).length - i)) (sentence_base tk sent kwargs) =
      some (famValue f ((tk.tokenize sent).getD i "")
        (tk.tagOf (tk.tokenize sent) i) tk.stem) := by
  show alookup (bwdKey f ((tk.tokenize sent).length - i))
      (applyWrites (scalarWrites sent (tk.tokenize sent).length ++
        (List.range (tk.tokenize sent).length).flatMap
          (fun j => tokenWrites j (tk.tokenize sent).length ((tk.tokenize sent).getD j "")
            (tk.tagOf (tk.tokenize sent) j) tk.stem)) kwargs) = _
  rw [alookup_applyWrites, wlast_append]
  rw [wlast_flatMap_blocks (bwdKey f ((tk.tokenize sent).length - i))
    (fun j => tokenWrites j (tk.tokenize sent).length ((tk.tokenize sent).getD j "")
      (tk.tagOf (tk.tokenize sent) j) tk.stem)
    (famValue f ((tk.tokenize sent).getD i "") (tk.tagOf (tk.tokenize sent) i) tk.stem)
    i (List.range (tk.tokenize sent).length)
    (wlast_tokenWrites_bwd f i (tk.tokenize sent).length _ _ _)
    (fun j hj hne => wlast_tokenWrites_bwd_ne f i j (tk.tokenize sent).length _ _ _
      (by have := List.mem_range.mp hj; omega))]
  rw [if_pos (List.mem_range.mpr hi)]

theorem ctx_writes_ne_fwdKey (tk : Toolkit) (history : List String) (f : Fam) (i : Nat) :
    ∀ p ∈ history.enum.flatMap
      (fun q => (sentence_base tk q.2 []).map (fun e => (ctxKey q.1 e.1, e.2))),
      p.1 ≠ fwdKey f i := by
  intro p hp
  rcases List.mem_flatMap.mp hp with ⟨q, _, hpq⟩
  rcases List.mem_map.mp hpq with ⟨entry, _, rfl⟩
  exact fun h => fwdKey_ne_ctxKey f i q.1 entry.1 h.symm

theorem ctx_writes_ne_bwdKey (tk : Toolkit) (history : List String) (f : Fam) (k : Nat) :
    ∀ p ∈ history.enum.flatMap
      (fun q => (sentence_base tk q.2 []).map (fun e => (ctxKey q.1 e.1, e.2))),
      p.1 ≠ bwdKey f k := by
  intro p hp
  rcases List.mem_flatMap.mp hp with ⟨q, _, hpq⟩
  rcases List.mem_map.mp hpq with ⟨entry, _, rfl⟩
  exact fun h => bwdKey_ne_ctxKey f k q.1 entry.1 h.symm

theorem alookup_sentence_data_fwd (tk : Toolkit) (sent : String) (history : List String)
    (uc : Bool) (kwargs : Dict) (f : Fam) (i : Nat) (hi : i < (tk.tokenize sent).length) :
    alookup (fwdKey f i) (sentence_data tk sent history uc kwargs) =
      some (famValue f ((tk.tokenize sent).getD i "")
        (tk.tagOf (tk.tokenize sent) i) tk.stem) := by
  cases uc with
  | false => exact alookup_sentence_base_fwd tk sent kwargs f i hi
  | true =>
    show alookup (fwdKey f i)
        (applyWrites (history.enum.flatMap
          (fun q => (sentence_base tk q.2 []).map (fun e => (ctxKey q.1 e.1, e.2))))
          (sentence_base tk sent kwargs)) = _
    rw [alookup_applyWrites_of_ne _ _ _ (ctx_writes_ne_fwdKey tk history f i)]
    exact alookup_sentence_base_fwd tk sent kwargs f i hi

theorem alookup_sentence_data_bwd (tk : Toolkit) (sent : String) (history : List String)
    (uc : Bool) (kwargs : Dict) (f : Fam) (i : Nat) (hi : i < (tk.tokenize sent).length) :
    alookup (bwdKey f ((tk.tokenize sent).length - i)) (sentence_data tk sent history uc kwargs) =
      some (famValue f ((tk.tokenize sent).getD i "")
        (tk.tagOf (tk.tokenize sent) i) tk.stem) := by
  cases uc with
  | false => exact alookup_sentence_base_bwd tk sent kwargs f i hi
  | true =>
    show alookup (bwdKey f ((tk.tokenize sent).length - i))
        (applyWrites (history.enum.flatMap
          (fun q => (sentence_base tk q.2 []).map (fun e => (ctxKey q.1 e.1, e.2))))
          (sentence_base tk sent kwargs)) = _
    rw [alookup_applyWrites_of_ne _ _ _
      (ctx_writes_ne_bwdKey tk history f ((tk.tokenize sent).length - i))]
    exact alookup_sentence_base_bwd tk sent kwargs f i hi

/-- C4: for every sentence, history, context flag and extra fields, and every
token index `i` below the token count `n`, each per-token feature family that
`sentence_data` emits is present both under its forward key `'{fam} #{i}'`
and under its backward key `'{fam} #-{n-i}'`, and the two entries hold the
same value. -/
theorem extract_mirrored_keys (tk : Toolkit) (sent : String) (history : List String)
    (uc : Bool) (kwargs : Dict) (f : Fam) (i : Nat)
    (hi : i < (tk.tokenize sent).length) :
    ∃ v, alookup (fwdKey f i) (sentence_data tk sent history uc kwargs) = some v ∧
      alookup (bwdKey f ((tk.tokenize sent).length - i))
        (sentence_data tk sent history uc kwargs) = some v :=
  ⟨famValue f ((tk.tokenize sent).getD i "") (tk.tagOf (tk.tokenize sent) i) tk.stem,
   alookup_sentence_data_fwd tk sent history uc kwargs f i hi,
   alookup_sentence_data_bwd tk sent history uc kwargs f i hi⟩

theorem extract_mirrored_keys_witness :
    0 < (tkOne.tokenize "ab").length ∧
    ∃ v, alookup (fwdKey .token 0) (sentence_data tkOne "ab" ["hi"] true []) = some v ∧
      alookup (bwdKey .token ((tkOne.tokenize "ab").length - 0))
        (sentence_data tkOne "ab" ["hi"] true []) = some v :=
  ⟨by decide, extract_mirrored_keys tkOne "ab" ["hi"] true [] .token 0 (by decide)⟩
